import Mathlib

/-!
Shallow embedding of the TikTok download extension's background service
(src/background.js), its logger (logger.js) and the popup/content glue,
together with proofs of the specification claims.

Modelling conventions:
* JavaScript timestamps (Date.now()) are integers (Int), so that ages
  (now - timestamp) can be negative when a stored timestamp lies in the
  future.
* A JS Map with string keys is an association list with unique keys;
  Map.set replaces in place, Map.delete removes the first occurrence.
* JS truthiness of the opaque JSON payloads is modelled by jsTruthy.
* Ghost instrumentation fields (armEvents, writes, storageReads,
  fetches/upsertCalls in results) record observable side effects
  (timer arming, durable writes, storage reads, network calls); they do
  not influence any control flow.
-/

namespace TikTokExt

/-- The payload type of the cache: a parsed response body, i.e. any
JavaScript value obtained from response.json(). -/
inductive Json where
  | jsNull : Json
  | jsBool (b : Bool) : Json
  | jsNumber (n : Int) : Json
  | jsString (s : String) : Json
  | jsArray (items : List Json) : Json
  | jsObject (props : List (String × Json)) : Json
deriving Repr

/-- JavaScript truthiness of a payload: null, false, 0 and the empty
string are falsy; arrays and objects are always truthy. -/
def jsTruthy : Json → Bool
  | .jsNull => false
  | .jsBool b => b
  | .jsNumber n => n != 0
  | .jsString s => s != ""
  | .jsArray _ => true
  | .jsObject _ => true

/-- CACHE_TTL_MS = 1000 * 60 * 60 (one hour), from background.js line 5. -/
def CACHE_TTL_MS : Int := 1000 * 60 * 60

/-- An in-memory cache entry: { data, timestamp }.  The timestamp is
optional because hydration copies a possibly-missing stored timestamp
verbatim; every use applies the JS default (timestamp || 0). -/
structure Entry where
  data : Json
  timestamp : Option Int
deriving Repr

/-- Association-list lookup (JS Map.get): first binding for the key. -/
def alGet : List (String × Entry) → String → Option Entry
  | [], _ => none
  | (kh, v) :: rest, k => if kh = k then some v else alGet rest k

/-- Association-list insert/replace (JS Map.set): replace in place if the
key is present, else append at the end (insertion order preserved). -/
def alSet : List (String × Entry) → String → Entry → List (String × Entry)
  | [], k, v => [(k, v)]
  | (kh, vh) :: rest, k, v =>
    if kh = k then (k, v) :: rest else (kh, vh) :: alSet rest k v

/-- Association-list removal (JS Map.delete): remove the first binding. -/
def alErase : List (String × Entry) → String → List (String × Entry)
  | [], _ => []
  | (kh, vh) :: rest, k =>
    if kh = k then rest else (kh, vh) :: alErase rest k

/-- The record persisted to durable storage for one entry:
{ key, data, timestamp } (background.js lines 50-54). -/
structure StoredRecord where
  key : String
  data : Json
  timestamp : Option Int
deriving Repr

/-- The background service worker's cache state: the Map, the pending
persist timer (persistTimeoutId, modelled as a flag), plus ghost
instrumentation counting timer arms and recording durable writes. -/
structure CacheState where
  cache : List (String × Entry)
  timerArmed : Bool
  armEvents : Nat
  writes : List (List StoredRecord)
deriving Repr

/-- schedulePersist (background.js lines 64-67): if a persist timeout is
already pending, return; otherwise arm the 2-second timer. -/
def schedulePersist (st : CacheState) : CacheState :=
  if st.timerArmed then st
  else { st with timerArmed := true, armEvents := st.armEvents + 1 }

/-- Serialization performed by persistCache (background.js lines 50-54):
Array.from(cache.entries()).map(([key, value]) => ({key, data, timestamp})). -/
def serializeCache (c : List (String × Entry)) : List StoredRecord :=
  c.map fun kv => { key := kv.1, data := kv.2.data, timestamp := kv.2.timestamp }

/-- persistCache (background.js lines 48-62): clear the timer id, then
write the whole serialized map to durable storage. -/
def persistCache (st : CacheState) : CacheState :=
  { st with timerArmed := false, writes := st.writes ++ [serializeCache st.cache] }

/-- A cache hit result: { data, age } as returned by cacheLookup. -/
structure HitResult where
  data : Json
  age : Int
deriving Repr

/-- cacheLookup (background.js lines 69-81).  Returns null for a falsy
key, an unmapped key, or an entry older than TTL (deleting it and
scheduling a persist); otherwise returns { data, age }. -/
def cacheLookup (st : CacheState) (key : String) (now : Int) :
    Option HitResult × CacheState :=
  if key = "" then (none, st)
  else
    match alGet st.cache key with
    | none => (none, st)
    | some entry =>
      let age := now - (entry.timestamp.getD 0)
      if age > CACHE_TTL_MS then
        (none, schedulePersist { st with cache := alErase st.cache key })
      else
        (some { data := entry.data, age := age }, st)

/-- upsertCache (background.js lines 83-87): no-op on a falsy key or
falsy data, otherwise set { data, timestamp := now } and schedule a
persist. -/
def upsertCache (st : CacheState) (key : String) (data : Json) (now : Int) :
    CacheState :=
  if key = "" || !jsTruthy data then st
  else schedulePersist { st with cache := alSet st.cache key { data := data, timestamp := some now } }

/-- pruneExpiredEntries (background.js lines 33-46): delete every entry
with now - (timestamp || 0) > TTL; if any were removed, schedule a
persist. -/
def pruneExpiredEntries (st : CacheState) (now : Int) : CacheState :=
  let keep := st.cache.filter fun kv => !(now - (kv.2.timestamp.getD 0) > CACHE_TTL_MS)
  if keep.length = st.cache.length then st
  else schedulePersist { st with cache := keep }

/-! ### Hydration (ensureCacheLoaded, background.js lines 10-31) -/

/-- Admission of one stored array element during hydration (background.js
lines 17-23): skip falsy elements (modelled as none) and elements with a
falsy key; admit the entry when its age now - (timestamp || 0) is at
most TTL and its data is truthy.  The stored timestamp is copied
verbatim. -/
def hydrateOne (now : Int) (st : CacheState) (oe : Option StoredRecord) :
    CacheState :=
  match oe with
  | none => st
  | some e =>
    if e.key = "" then st
    else if now - (e.timestamp.getD 0) ≤ CACHE_TTL_MS && jsTruthy e.data then
      { st with cache := alSet st.cache e.key { data := e.data, timestamp := e.timestamp } }
    else st

/-- The body of the hydration callback (background.js lines 15-26): fold
the admission filter over the stored array; if the stored array was
nonempty, run pruneExpiredEntries. -/
def applyHydration (now : Int) (stored : List (Option StoredRecord))
    (st : CacheState) : CacheState :=
  let st1 := stored.foldl (hydrateOne now) st
  if stored.length ≠ 0 then pruneExpiredEntries st1 now else st1

/-- The lifecycle of the shared hydration promise (cacheLoadPromise):
absent before the first ensureCacheLoaded call, pending while the
chrome.storage.local.get read is in flight, resolved once the callback
has populated the map. -/
inductive PromiseState where
  | absent : PromiseState
  | pending : PromiseState
  | resolved : PromiseState
deriving Repr, DecidableEq

/-- Whole background-worker state: the cache state, the cacheLoadPromise
marker and a ghost count of durable-storage reads initiated. -/
structure BGState where
  cacheState : CacheState
  promise : PromiseState
  storageReads : Nat
deriving Repr

/-- ensureCacheLoaded (background.js lines 10-31): if cacheLoadPromise
already exists (pending or resolved) return it unchanged; otherwise
create the promise, which synchronously initiates the single
chrome.storage.local.get read. -/
def ensureCacheLoaded (st : BGState) : BGState :=
  if st.promise = .absent then
    { st with promise := .pending, storageReads := st.storageReads + 1 }
  else st

/-- Completion of the storage read: the get callback runs the hydration
body and resolves the shared promise.  It initiates no further storage
read. -/
def completeHydration (now : Int) (stored : List (Option StoredRecord))
    (st : BGState) : BGState :=
  { st with cacheState := applyHydration now stored st.cacheState, promise := .resolved }

/-! ### Platform builtins used by deriveCacheKey

Models of the WHATWG URL constructor (query extraction and authority
validation for the special schemes), URLSearchParams.get (split on the
ampersand, split each piece at the first equals sign,
form-urlencoded-decode names and values, first match wins) and
ECMAScript decodeURIComponent (strict percent-decoding: a percent sign
not followed by two hex digits, or escape bytes that do not form valid
UTF-8, throw a URIError, modelled as none).  The models are exact on
ASCII input; IPv6 host brackets and the URL parser's re-encoding of
exotic query characters are out of modelled scope, and no claim
exercises them. -/

/-- Hexadecimal digit value, or none; written over the raw code point
(48-57 digits, 97-102 lowercase, 65-70 uppercase). -/
def hexVal (c : Char) : Option Nat :=
  let n := c.toNat
  if 48 ≤ n && n ≤ 57 then some (n - 48)
  else if 97 ≤ n && n ≤ 102 then some (n - 87)
  else if 65 ≤ n && n ≤ 70 then some (n - 55)
  else none

/-- A decoding token: a literal character or a percent-decoded byte. -/
def DecToken := Sum Char Nat

/-- Strict percent tokenizer (decodeURIComponent): a percent sign must
be followed by two hex digits, else the whole decode throws. -/
def strictTokens : List Char → Option (List DecToken)
  | [] => some []
  | '%' :: a :: b :: rest =>
    match hexVal a, hexVal b with
    | some ha, some hb => (strictTokens rest).map (Sum.inr (16 * ha + hb) :: ·)
    | _, _ => none
  | '%' :: _ => none
  | c :: rest => (strictTokens rest).map (Sum.inl c :: ·)

/-- Lenient percent tokenizer (application/x-www-form-urlencoded): an
invalid escape is left in place as literal characters. -/
def lenientTokens : List Char → List DecToken
  | [] => []
  | '%' :: a :: b :: rest =>
    match hexVal a, hexVal b with
    | some ha, some hb => Sum.inr (16 * ha + hb) :: lenientTokens rest
    | _, _ => Sum.inl '%' :: lenientTokens (a :: b :: rest)
  | '%' :: rest => Sum.inl '%' :: lenientTokens rest
  | c :: rest => Sum.inl c :: lenientTokens rest

/-- Is a byte a UTF-8 continuation byte (0x80-0xBF)? -/
def isCont (b : Nat) : Bool := 0x80 ≤ b && b ≤ 0xBF

/-- Strict decoding of a token stream: literal characters pass through;
escape bytes must form valid UTF-8 sequences made entirely of escapes
(the ECMAScript decodeURIComponent rule), else the decode fails. -/
def decodeTokensStrict : List DecToken → Option (List Char)
  | [] => some []
  | Sum.inl c :: rest => (decodeTokensStrict rest).map (c :: ·)
  | Sum.inr b :: rest =>
    if b < 0x80 then (decodeTokensStrict rest).map (Char.ofNat b :: ·)
    else if 0xC2 ≤ b && b ≤ 0xDF then
      match rest with
      | Sum.inr b2 :: rest2 =>
        if isCont b2 then
          (decodeTokensStrict rest2).map (Char.ofNat ((b - 0xC0) * 0x40 + (b2 - 0x80)) :: ·)
        else none
      | _ => none
    else if 0xE0 ≤ b && b ≤ 0xEF then
      match rest with
      | Sum.inr b2 :: Sum.inr b3 :: rest3 =>
        let lo2 := if b = 0xE0 then 0xA0 else 0x80
        let hi2 := if b = 0xED then 0x9F else 0xBF
        if lo2 ≤ b2 && b2 ≤ hi2 && isCont b3 then
          (decodeTokensStrict rest3).map
            (Char.ofNat ((b - 0xE0) * 0x1000 + (b2 - 0x80) * 0x40 + (b3 - 0x80)) :: ·)
        else none
      | _ => none
    else if 0xF0 ≤ b && b ≤ 0xF4 then
      match rest with
      | Sum.inr b2 :: Sum.inr b3 :: Sum.inr b4 :: rest4 =>
        let lo2 := if b = 0xF0 then 0x90 else 0x80
        let hi2 := if b = 0xF4 then 0x8F else 0xBF
        if lo2 ≤ b2 && b2 ≤ hi2 && isCont b3 && isCont b4 then
          (decodeTokensStrict rest4).map
            (Char.ofNat ((b - 0xF0) * 0x40000 + (b2 - 0x80) * 0x1000 +
              (b3 - 0x80) * 0x40 + (b4 - 0x80)) :: ·)
        else none
      | _ => none
    else none

/-- Worker for the lossy decoder, structurally recursive on a fuel
bound; every step consumes at least one token, so fuel equal to the
token count is always sufficient. -/
def lossyGo : Nat → List DecToken → List Char
  | 0, _ => []
  | _ + 1, [] => []
  | fuel + 1, Sum.inl c :: rest => c :: lossyGo fuel rest
  | fuel + 1, Sum.inr b :: rest =>
    if b < 0x80 then Char.ofNat b :: lossyGo fuel rest
    else if 0xC2 ≤ b && b ≤ 0xDF then
      match rest with
      | Sum.inr b2 :: rest2 =>
        if isCont b2 then
          Char.ofNat ((b - 0xC0) * 0x40 + (b2 - 0x80)) :: lossyGo fuel rest2
        else Char.ofNat 0xFFFD :: lossyGo fuel rest
      | _ => Char.ofNat 0xFFFD :: lossyGo fuel rest
    else if 0xE0 ≤ b && b ≤ 0xEF then
      match rest with
      | Sum.inr b2 :: Sum.inr b3 :: rest3 =>
        let lo2 := if b = 0xE0 then 0xA0 else 0x80
        let hi2 := if b = 0xED then 0x9F else 0xBF
        if lo2 ≤ b2 && b2 ≤ hi2 && isCont b3 then
          Char.ofNat ((b - 0xE0) * 0x1000 + (b2 - 0x80) * 0x40 + (b3 - 0x80)) ::
            lossyGo fuel rest3
        else Char.ofNat 0xFFFD :: lossyGo fuel rest
      | _ => Char.ofNat 0xFFFD :: lossyGo fuel rest
    else if 0xF0 ≤ b && b ≤ 0xF4 then
      match rest with
      | Sum.inr b2 :: Sum.inr b3 :: Sum.inr b4 :: rest4 =>
        let lo2 := if b = 0xF0 then 0x90 else 0x80
        let hi2 := if b = 0xF4 then 0x8F else 0xBF
        if lo2 ≤ b2 && b2 ≤ hi2 && isCont b3 && isCont b4 then
          Char.ofNat ((b - 0xF0) * 0x40000 + (b2 - 0x80) * 0x1000 +
            (b3 - 0x80) * 0x40 + (b4 - 0x80)) :: lossyGo fuel rest4
        else Char.ofNat 0xFFFD :: lossyGo fuel rest
      | _ => Char.ofNat 0xFFFD :: lossyGo fuel rest
    else Char.ofNat 0xFFFD :: lossyGo fuel rest

/-- Lossy decoding of a token stream (WHATWG UTF-8 decode): an invalid
byte sequence yields U+FFFD for its leading byte and decoding resumes. -/
def decodeTokensLossy (ts : List DecToken) : List Char :=
  lossyGo ts.length ts

/-- ECMAScript decodeURIComponent; none models a thrown URIError. -/
def decodeURIComponent (s : String) : Option String :=
  match strictTokens s.toList with
  | none => none
  | some ts => (decodeTokensStrict ts).map List.asString

/-- application/x-www-form-urlencoded decoding, as URLSearchParams
applies to parameter names and values: plus becomes space, percent
escapes decode leniently, invalid UTF-8 becomes U+FFFD.  Total. -/
def formDecode (s : String) : String :=
  List.asString (decodeTokensLossy (lenientTokens
    (s.toList.map fun c => if c = '+' then ' ' else c)))

/-- Split a character list at the first occurrence of a separator:
(before, some after) when found, (whole, none) otherwise. -/
def breakAtFirst (c : Char) : List Char → List Char × Option (List Char)
  | [] => ([], none)
  | x :: rest =>
    if x = c then ([], some rest)
    else
      let p := breakAtFirst c rest
      (x :: p.1, p.2)

/-- Split a character list on every occurrence of a separator; empty
segments are kept (the caller drops them), so splitting the empty list
yields one empty segment. -/
def splitOnChar (c : Char) : List Char → List (List Char)
  | [] => [[]]
  | x :: rest =>
    let r := splitOnChar c rest
    if x = c then [] :: r
    else
      match r with
      | [] => [[x]]
      | seg :: segs => (x :: seg) :: segs

/-- The raw (undecoded) name/value pairs of a query string: split on the
ampersand, drop empty pieces, split each piece at the first equals sign
(missing value means empty string). -/
def rawPairs (q : String) : List (String × String) :=
  (splitOnChar '&' q.toList).filterMap fun seg =>
    if seg.isEmpty then none
    else
      match breakAtFirst '=' seg with
      | (n, none) => some (n.asString, "")
      | (n, some v) => some (n.asString, v.asString)

/-- URLSearchParams.get: the form-decoded value of the first pair whose
form-decoded name matches, or none. -/
def searchParamsGet (q : String) (name : String) : Option String :=
  ((rawPairs q).find? fun p => formDecode p.1 = name).map fun p => formDecode p.2

/-- The scheme characters after the first and the remainder after the
colon, for splitScheme. -/
def schemeRest : List Char → Option (List Char × List Char)
  | [] => none
  | ':' :: rest => some ([], rest)
  | c :: rest =>
    if c.isAlphanum || c = '+' || c = '-' || c = '.' then
      (schemeRest rest).map fun p => (c :: p.1, p.2)
    else none

/-- Split off a URL scheme: an ASCII letter followed by letters, digits,
plus, minus or dot, terminated by a colon.  The scheme is lowercased. -/
def splitScheme (cs : List Char) : Option (String × List Char) :=
  match cs with
  | [] => none
  | c :: rest =>
    if c.isAlpha then
      (schemeRest rest).map fun p => (((c :: p.1).map Char.toLower).asString, p.2)
    else none

/-- Code points forbidden in a URL host (WHATWG forbidden domain code
points, restricted to the ASCII-relevant ones). -/
def forbiddenHostChar (c : Char) : Bool :=
  c = ' ' || c = '#' || c = '/' || c = ':' || c = '<' || c = '>' || c = '?' ||
  c = '@' || c = '[' || c = '\\' || c = ']' || c = '^' || c = '|' || c = '%' ||
  c.toNat < 0x20

/-- The host-port part of an authority: everything after the last at
sign (userinfo is discarded). -/
def afterLastAt (cs : List Char) : List Char :=
  (cs.reverse.takeWhile (· ≠ '@')).reverse

/-- Validity of a special-scheme authority: nonempty host without
forbidden code points, and a numeric (possibly empty) port. -/
def validAuthority (auth : List Char) : Bool :=
  let hp := afterLastAt auth
  let p := breakAtFirst ':' hp
  !p.1.isEmpty && p.1.all (fun c => !forbiddenHostChar c) &&
    (match p.2 with
     | none => true
     | some port => port.all Char.isDigit)

/-- The special schemes whose URLs require an authority. -/
def specialSchemes : List String := ["http", "https", "ws", "wss", "ftp"]

/-- Model of the URL constructor, reduced to what deriveCacheKey
observes: none when new URL(s) throws, otherwise the query string
(without the question mark; empty when absent).  For the special
schemes the slashes after the colon are consumed leniently and the
authority must validate; other schemes are accepted with an opaque
path. -/
def parseURLQuery (s : String) : Option String :=
  match splitScheme s.toList with
  | none => none
  | some (scheme, rest) =>
    let beforeFrag := rest.takeWhile (· ≠ '#')
    let p := breakAtFirst '?' beforeFrag
    let q := (p.2.getD []).asString
    if specialSchemes.contains scheme then
      let afterSlashes := p.1.dropWhile fun c => c = '/' || c = '\\'
      let auth := afterSlashes.takeWhile fun c => c ≠ '/' && c ≠ '\\'
      if validAuthority auth then some q else none
    else some q

/-! ### Key derivation and the fetch orchestrator -/

/-- A fetchTikTokData request: { apiUrl, cacheKey? }. -/
structure FetchRequest where
  cacheKey : Option String
  apiUrl : String
deriving Repr

/-- The JS expression a || b over optional strings followed by a
truthiness test: some v exactly when the combined value is truthy. -/
def jsOrParam (a b : Option String) : Option String :=
  match a with
  | some s =>
    if s ≠ "" then some s
    else
      match b with
      | some t => if t ≠ "" then some t else none
      | none => none
  | none =>
    match b with
    | some t => if t ≠ "" then some t else none
    | none => none

/-- The URL-derived branch of deriveCacheKey (background.js lines
91-98): parse the apiUrl, read the url or source query parameter, and
decodeURIComponent the value; any throw (URL parse or decode) is caught
and the raw apiUrl returned, as is a falsy parameter value. -/
def deriveKeyFromUrl (apiUrl : String) : String :=
  match parseURLQuery apiUrl with
  | none => apiUrl
  | some q =>
    match jsOrParam (searchParamsGet q "url") (searchParamsGet q "source") with
    | none => apiUrl
    | some v =>
      match decodeURIComponent v with
      | some w => w
      | none => apiUrl

/-- deriveCacheKey (background.js lines 89-99): a truthy explicit
cacheKey wins; otherwise derive from the apiUrl. -/
def deriveCacheKey (req : FetchRequest) : String :=
  match req.cacheKey with
  | some k => if k ≠ "" then k else deriveKeyFromUrl req.apiUrl
  | none => deriveKeyFromUrl req.apiUrl

/-- The outcome of the single network attempt for one request: either
the fetch promise rejects (message of the network error), or a response
arrives with a status code and a body that parses as JSON or does not
(none models a response.json() rejection). -/
inductive FetchOutcome where
  | networkError (msg : String) : FetchOutcome
  | response (status : Int) (body : Option Json) : FetchOutcome
deriving Repr

/-- Response.ok of the Fetch standard: status in the 2xx success range. -/
def responseOk (status : Int) : Bool := 200 ≤ status && status < 300

/-- The success shape returned by handleFetchTikTokData:
{ data, cacheHit, cacheAge }. -/
structure FetchReply where
  data : Json
  cacheHit : Bool
  cacheAge : Int
deriving Repr

/-- Result of one orchestrated request: the settled promise (ok or a
thrown error message), the cache state afterwards, and ghost counts of
network calls made and upsertCache invocations. -/
structure HandlerResult where
  reply : Except String FetchReply
  state : CacheState
  fetches : Nat
  upsertCalls : Nat
deriving Repr

/-- handleFetchTikTokData (background.js lines 101-143), entered after
ensureCacheLoaded has resolved: prune, derive the key, consult the
cache; on a hit reply { data, cacheHit := true, cacheAge }; on a miss
perform exactly one fetch whose outcome is classified into network
error, HTTP status error, parse error, or success; on success upsert
the payload under the derived key before resolving with
{ data, cacheHit := false, cacheAge := 0 }. -/
def handleFetchTikTokData (st : CacheState) (req : FetchRequest) (now : Int)
    (outcome : FetchOutcome) : HandlerResult :=
  let st1 := pruneExpiredEntries st now
  let key := deriveCacheKey req
  match cacheLookup st1 key now with
  | (some hit, st2) =>
    { reply := .ok { data := hit.data, cacheHit := true, cacheAge := hit.age },
      state := st2, fetches := 0, upsertCalls := 0 }
  | (none, st2) =>
    match outcome with
    | .networkError msg =>
      { reply := .error (if msg = "" then "Network error" else msg),
        state := st2, fetches := 1, upsertCalls := 0 }
    | .response status body =>
      if !responseOk status then
        { reply := .error ("HTTP error: " ++ toString status),
          state := st2, fetches := 1, upsertCalls := 0 }
      else
        match body with
        | none =>
          { reply := .error "Failed to parse API response",
            state := st2, fetches := 1, upsertCalls := 0 }
        | some payload =>
          { reply := .ok { data := payload, cacheHit := false, cacheAge := 0 },
            state := upsertCache st2 key payload now,
            fetches := 1, upsertCalls := 1 }

/-- The wire reply the onMessage listener sends back (background.js
lines 148-156): the resolved value on success, { error: message } on
rejection (with the JS default for an empty message). -/
inductive WireReply where
  | success (data : Json) (cacheHit : Bool) (cacheAge : Int) : WireReply
  | failure (error : String) : WireReply
deriving Repr

/-- The fetchTikTokData branch of the message listener: convert the
handler's settled promise into a wire reply. -/
def fetchTikTokDataResponse (st : CacheState) (req : FetchRequest) (now : Int)
    (outcome : FetchOutcome) : WireReply × HandlerResult :=
  let r := handleFetchTikTokData st req now outcome
  match r.reply with
  | .ok v => (.success v.data v.cacheHit v.cacheAge, r)
  | .error e => (.failure (if e = "" then "Unknown error" else e), r)

/-! ### Structured logger (logger.js) -/

/-- The four log levels, in LEVEL_ORDER order. -/
inductive Level where
  | debug : Level
  | info : Level
  | warn : Level
  | error : Level
deriving Repr, DecidableEq

/-- LEVEL_ORDER (logger.js line 2): debug 0, info 1, warn 2, error 3. -/
def levelOrder : Level → Nat
  | .debug => 0
  | .info => 1
  | .warn => 2
  | .error => 3

/-- The string name of a level, as used as a LEVEL_ORDER key. -/
def levelName : Level → String
  | .debug => "debug"
  | .info => "info"
  | .warn => "warn"
  | .error => "error"

/-- LEVEL_ORDER.hasOwnProperty plus key selection: the level named by a
string, or none for an unknown name. -/
def levelOfName (s : String) : Option Level :=
  if s = "debug" then some .debug
  else if s = "info" then some .info
  else if s = "warn" then some .warn
  else if s = "error" then some .error
  else none

/-- Whitespace trimming of both ends (String.prototype.trim), defined
structurally over the character list. -/
def trimChars (s : String) : String :=
  ((s.toList.dropWhile Char.isWhitespace).reverse.dropWhile
    Char.isWhitespace).reverse.asString

/-- ASCII lowercasing (String.prototype.toLowerCase on the level-name
inputs actually used), defined structurally over the character list. -/
def lowerStr (s : String) : String :=
  (s.toList.map Char.toLower).asString

/-- sanitizeScope (logger.js lines 6-10): a falsy or all-whitespace
scope becomes the app scope, otherwise the scope is trimmed.  (The
non-string coercion branch is outside the modelled string inputs.) -/
def sanitizeScope (s : String) : String :=
  if s = "" then "app"
  else if trimChars s = "" then "app" else trimChars s

/-- resolveLevel (logger.js lines 12-16): a falsy level resolves to the
global level; otherwise the lowercased name if known, else the global
level.  The level argument is optional (options.level may be absent). -/
def resolveLevel (globalLevel : Level) (level : Option String) : Level :=
  match level with
  | none => globalLevel
  | some s =>
    if s = "" then globalLevel
    else
      match levelOfName (lowerStr s) with
      | some l => l
      | none => globalLevel

/-- shouldLog (logger.js lines 18-21): resolve the level string and
compare against the global minimum. -/
def shouldLog (globalLevel : Level) (level : Option String) : Bool :=
  levelOrder globalLevel ≤ levelOrder (resolveLevel globalLevel level)

/-- Construction-time options of createScopedLogger: an optional local
level name and a deny-list of scope names. -/
structure LoggerOptions where
  level : Option String
  denyList : List String
deriving Repr

/-- The per-instance configuration createScopedLogger fixes at
construction (logger.js lines 43-46): the sanitized scope, the local
level resolved against the then-current global level, and the sanitized
deny-set (falsy entries dropped). -/
structure LoggerInstance where
  scope : String
  localLevel : Level
  denied : List String
deriving Repr

/-- createScopedLogger (logger.js lines 43-46), reduced to the data the
emission gate reads. -/
def createScopedLogger (globalAtConstruction : Level) (scope : String)
    (options : LoggerOptions) : LoggerInstance :=
  { scope := sanitizeScope scope,
    localLevel := resolveLevel globalAtConstruction options.level,
    denied := (options.denyList.filter (· ≠ "")).map sanitizeScope }

/-- The emission gate of log (logger.js lines 48-56): resolve the
requested level, drop the record unless it clears the global gate
(shouldLog) and the local gate, then drop it if the instance's scope is
in the deny-set; globalNow is the global level at call time. -/
def logWillEmit (globalNow : Level) (inst : LoggerInstance)
    (level : Option String) : Bool :=
  let target := resolveLevel globalNow level
  if !shouldLog globalNow (some (levelName target)) ||
      levelOrder target < levelOrder inst.localLevel then false
  else if inst.denied.contains inst.scope then false
  else true

/-! ### Basic lemmas about the cache primitives -/

theorem schedulePersist_cache (st : CacheState) :
    (schedulePersist st).cache = st.cache := by
  unfold schedulePersist; split <;> rfl

theorem schedulePersist_timerArmed (st : CacheState) :
    (schedulePersist st).timerArmed = true := by
  unfold schedulePersist; split
  · assumption
  · rfl

theorem schedulePersist_writes (st : CacheState) :
    (schedulePersist st).writes = st.writes := by
  unfold schedulePersist; split <;> rfl

theorem schedulePersist_of_armed (st : CacheState) (h : st.timerArmed = true) :
    schedulePersist st = st := by
  unfold schedulePersist; simp [h]

theorem ensureCacheLoaded_of_started (st : BGState)
    (h : st.promise ≠ .absent) : ensureCacheLoaded st = st := by
  unfold ensureCacheLoaded; simp [h]

/-! ### Claim C1 -/

/-- C1: cacheLookup returns absent for a falsy key, an unmapped key, or
an entry whose age now - timestamp exceeds the TTL of 3600000 ms; in
the expired case the entry is deleted and a persist is scheduled; at
age exactly equal to the TTL the entry is returned as present with its
data and age. -/
theorem claim_C1_lookup_ttl (st : CacheState) (key : String) (now : Int) :
    (key = "" → cacheLookup st key now = (none, st)) ∧
    (alGet st.cache key = none → cacheLookup st key now = (none, st)) ∧
    (∀ e, key ≠ "" → alGet st.cache key = some e →
        CACHE_TTL_MS < now - e.timestamp.getD 0 →
        (cacheLookup st key now).1 = none ∧
        (cacheLookup st key now).2.cache = alErase st.cache key ∧
        (cacheLookup st key now).2.timerArmed = true) ∧
    (∀ e, key ≠ "" → alGet st.cache key = some e →
        now - e.timestamp.getD 0 = CACHE_TTL_MS →
        cacheLookup st key now = (some { data := e.data, age := CACHE_TTL_MS }, st)) := by
  refine ⟨fun h => by simp [cacheLookup, h], ?_, ?_, ?_⟩
  · intro h
    unfold cacheLookup
    by_cases hk : key = ""
    · simp [hk]
    · simp [hk, h]
  · intro e hk hg hexp
    have hres : cacheLookup st key now =
        (none, schedulePersist { st with cache := alErase st.cache key }) := by
      unfold cacheLookup; simp [hk, hg, hexp]
    rw [hres]
    exact ⟨rfl, schedulePersist_cache _, schedulePersist_timerArmed _⟩
  · intro e hk hg heq
    have hres : cacheLookup st key now =
        (some { data := e.data, age := CACHE_TTL_MS }, st) := by
      unfold cacheLookup; simp [hk, hg, heq]
    exact hres

/-- Fixture: a one-entry cache with an unarmed persist timer. -/
def entK : Entry := { data := .jsNumber 5, timestamp := some 0 }

/-- Fixture: cache state holding entK under key k. -/
def stC1 : CacheState :=
  { cache := [("k", entK)], timerArmed := false, armEvents := 0, writes := [] }

/-- Witness for C1 at a concrete one-entry state: absent for the empty
key and an unmapped key; at age 3600001 absent with deletion and a
scheduled persist; at age exactly 3600000 present. -/
theorem claim_C1_lookup_ttl_witness :
    cacheLookup stC1 "" 7 = (none, stC1) ∧
    cacheLookup stC1 "absent" 7 = (none, stC1) ∧
    ((cacheLookup stC1 "k" 3600001).1 = none ∧
     (cacheLookup stC1 "k" 3600001).2.cache = alErase stC1.cache "k" ∧
     (cacheLookup stC1 "k" 3600001).2.timerArmed = true) ∧
    cacheLookup stC1 "k" 3600000 = (some { data := .jsNumber 5, age := CACHE_TTL_MS }, stC1) :=
  ⟨(claim_C1_lookup_ttl stC1 "" 7).1 rfl,
   (claim_C1_lookup_ttl stC1 "absent" 7).2.1 rfl,
   (claim_C1_lookup_ttl stC1 "k" 3600001).2.2.1 entK (by decide) rfl (by decide),
   (claim_C1_lookup_ttl stC1 "k" 3600000).2.2.2 entK (by decide) rfl (by decide)⟩

/-! ### Claim C4 -/

/-- C4: any number of ensureCacheLoaded calls trigger exactly one
durable-storage read per process lifetime: the first call creates the
shared promise (one read); every later call — before or after the
hydration completes — returns that same promise unchanged without
reading storage, and completing hydration reads nothing further. -/
theorem claim_C4_hydrate_once :
    (∀ st : BGState, st.promise ≠ .absent → ensureCacheLoaded st = st) ∧
    (∀ (st : BGState) (n : Nat), st.promise = .absent → 1 ≤ n →
        (ensureCacheLoaded^[n] st).storageReads = st.storageReads + 1 ∧
        (ensureCacheLoaded^[n] st).promise = .pending) ∧
    (∀ (now : Int) (stored : List (Option StoredRecord)) (st : BGState),
        (completeHydration now stored st).storageReads = st.storageReads) := by
  refine ⟨ensureCacheLoaded_of_started, ?_, fun _ _ _ => rfl⟩
  intro st n habs hn
  obtain ⟨m, rfl⟩ : ∃ m, n = m + 1 := ⟨n - 1, (Nat.succ_pred_eq_of_pos hn).symm⟩
  rw [Function.iterate_succ_apply]
  have h1 : ensureCacheLoaded st =
      { st with promise := .pending, storageReads := st.storageReads + 1 } := by
    unfold ensureCacheLoaded; simp [habs]
  have h2 : ensureCacheLoaded^[m] (ensureCacheLoaded st) = ensureCacheLoaded st := by
    apply Function.iterate_fixed
    apply ensureCacheLoaded_of_started
    rw [h1]; simp
  rw [h2, h1]
  exact ⟨rfl, rfl⟩

/-- Fixture: a fresh background worker state before any hydration. -/
def bgFresh : BGState :=
  { cacheState := { cache := [], timerArmed := false, armEvents := 0, writes := [] },
    promise := .absent, storageReads := 0 }

/-- Witness for C4: three calls from the fresh state perform exactly one
storage read, and completing hydration performs none. -/
theorem claim_C4_hydrate_once_witness :
    ((ensureCacheLoaded^[3] bgFresh).storageReads = bgFresh.storageReads + 1 ∧
     (ensureCacheLoaded^[3] bgFresh).promise = .pending) ∧
    (completeHydration 0 [] bgFresh).storageReads = bgFresh.storageReads :=
  ⟨claim_C4_hydrate_once.2.1 bgFresh 3 rfl (by decide),
   claim_C4_hydrate_once.2.2 0 [] bgFresh⟩

/-! ### Association-list lemmas -/

theorem alGet_alSet_self (c : List (String × Entry)) (k : String) (v : Entry) :
    alGet (alSet c k v) k = some v := by
  induction c with
  | nil => simp [alSet, alGet]
  | cons hd tl ih =>
    obtain ⟨ka, va⟩ := hd
    by_cases h : ka = k
    · simp [alSet, h, alGet]
    · simp [alSet, h, alGet, ih]

theorem alGet_alSet_ne (c : List (String × Entry)) (k k2 : String) (v : Entry)
    (h : k ≠ k2) : alGet (alSet c k v) k2 = alGet c k2 := by
  induction c with
  | nil => simp [alSet, alGet, h]
  | cons hd tl ih =>
    obtain ⟨ka, va⟩ := hd
    by_cases hk : ka = k
    · simp [alSet, hk, alGet, h]
    · simp only [alSet, hk, ite_false, if_false]
      by_cases hk2 : ka = k2
      · simp [alGet, hk2]
      · simp [alGet, hk2, ih]

theorem mem_alSet (c : List (String × Entry)) (k : String) (v : Entry)
    (kv : String × Entry) (h : kv ∈ alSet c k v) : kv = (k, v) ∨ kv ∈ c := by
  induction c with
  | nil => simpa [alSet] using h
  | cons hd tl ih =>
    obtain ⟨ka, va⟩ := hd
    by_cases hk : ka = k
    · simp only [alSet, hk, ite_true, if_true] at h
      rcases List.mem_cons.mp h with h1 | h1
      · exact .inl h1
      · exact .inr (List.mem_cons_of_mem _ h1)
    · simp only [alSet, hk, ite_false, if_false] at h
      rcases List.mem_cons.mp h with h1 | h1
      · exact .inr (h1 ▸ List.mem_cons_self _ _)
      · rcases ih h1 with h2 | h2
        · exact .inl h2
        · exact .inr (List.mem_cons_of_mem _ h2)

theorem mem_alErase (c : List (String × Entry)) (k : String)
    (kv : String × Entry) (h : kv ∈ alErase c k) : kv ∈ c := by
  induction c with
  | nil => simp [alErase] at h
  | cons hd tl ih =>
    obtain ⟨ka, va⟩ := hd
    by_cases hk : ka = k
    · simp only [alErase, hk, ite_true, if_true] at h
      exact List.mem_cons_of_mem _ h
    · simp only [alErase, hk, ite_false, if_false] at h
      rcases List.mem_cons.mp h with h1 | h1
      · exact h1 ▸ List.mem_cons_self _ _
      · exact List.mem_cons_of_mem _ (ih h1)

/-- A lookup that follows an effective upsert of the same key within
TTL returns the upserted data with age now - tUp and leaves the state
unchanged. -/
theorem lookup_after_upsert (st : CacheState) (key : String) (d : Json)
    (tUp now : Int) (hk : key ≠ "") (hd : jsTruthy d = true)
    (httl : now - tUp ≤ CACHE_TTL_MS) :
    cacheLookup (upsertCache st key d tUp) key now =
      (some { data := d, age := now - tUp }, upsertCache st key d tUp) := by
  have hget : alGet (upsertCache st key d tUp).cache key =
      some { data := d, timestamp := some tUp } := by
    unfold upsertCache
    rw [if_neg (by simp [hk, hd])]
    rw [schedulePersist_cache]
    exact alGet_alSet_self _ _ _
  have hno : ¬(now - tUp > CACHE_TTL_MS) := by omega
  unfold cacheLookup
  rw [if_neg hk, hget]
  simp [hno]

/-! ### Claim C5 -/

/-- C5 (amended): for every lookup returning a present result, the
returned age equals now - timestamp; for entries created by upsert the
age is nonnegative whenever the clock is monotone (lookup time at or
after the upsert time).  Hydration, however, can admit entries with
future timestamps, for which a lookup returns a negative age (see the
counterexample). -/
theorem claim_C5_age (st : CacheState) (key : String) (now : Int) :
    (∀ r st2, cacheLookup st key now = (some r, st2) →
        ∃ e, alGet st.cache key = some e ∧ r.data = e.data ∧
          r.age = now - e.timestamp.getD 0) ∧
    (∀ d tUp, key ≠ "" → jsTruthy d = true → tUp ≤ now →
        now - tUp ≤ CACHE_TTL_MS →
        cacheLookup (upsertCache st key d tUp) key now =
          (some { data := d, age := now - tUp }, upsertCache st key d tUp) ∧
        0 ≤ now - tUp) := by
  constructor
  · intro r st2 h
    unfold cacheLookup at h
    by_cases hk : key = ""
    · simp [hk] at h
    · rw [if_neg hk] at h
      cases hg : alGet st.cache key with
      | none => rw [hg] at h; simp at h
      | some entry =>
        rw [hg] at h
        by_cases hexp : now - entry.timestamp.getD 0 > CACHE_TTL_MS
        · simp [hexp] at h
        · simp only [hexp, if_false, ite_false, Prod.mk.injEq, Option.some.injEq] at h
          obtain ⟨rfl, rfl⟩ := h
          exact ⟨entry, rfl, rfl, rfl⟩
  · intro d tUp hk hd hmono httl
    have hup : upsertCache st key d tUp =
        schedulePersist { st with cache := alSet st.cache key { data := d, timestamp := some tUp } } := by
      unfold upsertCache; simp [hk, hd]
    have hget : alGet (upsertCache st key d tUp).cache key =
        some { data := d, timestamp := some tUp } := by
      rw [hup, schedulePersist_cache]; exact alGet_alSet_self _ _ _
    have hno : ¬(now - tUp > CACHE_TTL_MS) := by omega
    constructor
    · unfold cacheLookup
      rw [if_neg hk, hget]
      simp [hno]
    · omega

/-- Fixture: a stored entry carrying a timestamp 500000 ms in the
future relative to the hydration instant 0; the hydration admission
test (age ≤ TTL) accepts it because its age is negative. -/
def storedFuture : List (Option StoredRecord) :=
  [some { key := "k", data := .jsNumber 1, timestamp := some 500000 }]

/-- Fixture: the state hydrated from storedFuture at time 0. -/
def stFuture : CacheState :=
  applyHydration 0 storedFuture
    { cache := [], timerArmed := false, armEvents := 0, writes := [] }

/-- Counterexample to C5 as stated: an entry admitted by hydration from
durable storage is returned as present by a later lookup with a
strictly negative age, so the age is not always ≥ 0. -/
theorem claim_C5_age_cex :
    (cacheLookup stFuture "k" 100).1 = some { data := .jsNumber 1, age := -499900 } ∧
    ((-499900 : Int) < 0) := ⟨rfl, by decide⟩

/-- Witness for C5: the amended theorem applied at the one-entry fixture
(lookup age 100 = now - timestamp) and at a concrete upsert followed by
a lookup 100 ms later. -/
theorem claim_C5_age_witness :
    (∃ e, alGet stC1.cache "k" = some e ∧
      (HitResult.mk (.jsNumber 5) 100).data = e.data ∧
      (HitResult.mk (.jsNumber 5) 100).age = 100 - e.timestamp.getD 0) ∧
    (cacheLookup (upsertCache stC1 "k2" (.jsNumber 7) 5) "k2" 105 =
        (some { data := .jsNumber 7, age := 100 }, upsertCache stC1 "k2" (.jsNumber 7) 5) ∧
      (0 : Int) ≤ 105 - 5) :=
  ⟨(claim_C5_age stC1 "k" 100).1 { data := .jsNumber 5, age := 100 } stC1 rfl,
   by
    have h := (claim_C5_age stC1 "k2" 105).2 (.jsNumber 7) 5 (by decide) (by decide)
      (by decide) (by decide)
    simp only [show (105 : Int) - 5 = 100 from rfl] at h
    exact h⟩

/-! ### Claim C8 -/

/-- The invariant of C8: every entry of the in-memory map has a truthy
(non-empty) key and truthy data. -/
def cacheWF (c : List (String × Entry)) : Prop :=
  ∀ kv ∈ c, kv.1 ≠ "" ∧ jsTruthy kv.2.data = true

theorem cacheWF_filter (c : List (String × Entry)) (p : String × Entry → Bool)
    (h : cacheWF c) : cacheWF (c.filter p) :=
  fun kv hkv => h kv (List.mem_filter.mp hkv).1

theorem cacheWF_alErase (c : List (String × Entry)) (k : String)
    (h : cacheWF c) : cacheWF (alErase c k) :=
  fun kv hkv => h kv (mem_alErase c k kv hkv)

theorem cacheWF_alSet (c : List (String × Entry)) (k : String) (v : Entry)
    (h : cacheWF c) (hk : k ≠ "") (hv : jsTruthy v.data = true) :
    cacheWF (alSet c k v) := by
  intro kv hkv
  rcases mem_alSet c k v kv hkv with h1 | h1
  · rw [h1]; exact ⟨hk, hv⟩
  · exact h kv h1

theorem cacheWF_schedulePersist (st : CacheState) (h : cacheWF st.cache) :
    cacheWF (schedulePersist st).cache := by
  rw [schedulePersist_cache]; exact h

theorem cacheWF_prune (st : CacheState) (now : Int) (h : cacheWF st.cache) :
    cacheWF (pruneExpiredEntries st now).cache := by
  unfold pruneExpiredEntries
  dsimp only
  split
  · exact h
  · rw [schedulePersist_cache]; exact cacheWF_filter _ _ h

theorem cacheWF_hydrateOne (now : Int) (st : CacheState)
    (oe : Option StoredRecord) (h : cacheWF st.cache) :
    cacheWF (hydrateOne now st oe).cache := by
  unfold hydrateOne
  match oe with
  | none => exact h
  | some e =>
    by_cases hk : e.key = ""
    · simp only [hk, ite_true, if_true]; exact h
    · simp only [hk, ite_false, if_false]
      by_cases hc : (now - e.timestamp.getD 0 ≤ CACHE_TTL_MS && jsTruthy e.data) = true
      · simp only [hc, if_true, ite_true]
        rw [Bool.and_eq_true] at hc
        exact cacheWF_alSet _ _ _ h hk hc.2
      · simp only [hc, if_false, ite_false]
        exact h

theorem cacheWF_hydrationFold (now : Int) (stored : List (Option StoredRecord)) :
    ∀ st : CacheState, cacheWF st.cache →
      cacheWF (stored.foldl (hydrateOne now) st).cache := by
  induction stored with
  | nil => intro st h; exact h
  | cons hd tl ih =>
    intro st h
    exact ih (hydrateOne now st hd) (cacheWF_hydrateOne now st hd h)

/-- C8: truthy keys and truthy data are an invariant of the map.
Hydration admits only stored entries with a truthy key and truthy data,
upsert refuses falsy keys and falsy data, and lookup and prune only
delete entries, so the predicate is preserved by every operation. -/
theorem claim_C8_truthy_invariant :
    (∀ (now : Int) (stored : List (Option StoredRecord)) (st : CacheState),
        cacheWF st.cache → cacheWF (applyHydration now stored st).cache) ∧
    (∀ (st : CacheState) (k : String) (d : Json) (now : Int),
        cacheWF st.cache → cacheWF (upsertCache st k d now).cache) ∧
    (∀ (st : CacheState) (k : String) (now : Int),
        cacheWF st.cache → cacheWF (cacheLookup st k now).2.cache) ∧
    (∀ (st : CacheState) (now : Int),
        cacheWF st.cache → cacheWF (pruneExpiredEntries st now).cache) := by
  refine ⟨?_, ?_, ?_, ?_⟩
  · intro now stored st h
    unfold applyHydration
    split
    · exact cacheWF_prune _ _ (cacheWF_hydrationFold now stored st h)
    · exact cacheWF_hydrationFold now stored st h
  · intro st k d now h
    unfold upsertCache
    by_cases hc : (k = "" || !jsTruthy d) = true
    · simp only [hc, ite_true, if_true]; exact h
    · simp only [hc, ite_false, if_false]
      rw [Bool.or_eq_true, not_or] at hc
      obtain ⟨hk, hd⟩ := hc
      apply cacheWF_schedulePersist
      refine cacheWF_alSet _ _ _ h ?_ ?_
      · intro he; exact hk (by simp [he])
      · simpa using hd
  · intro st k now h
    unfold cacheLookup
    by_cases hk : k = ""
    · simp only [hk, ite_true, if_true]; exact h
    · rw [if_neg hk]
      cases hg : alGet st.cache k with
      | none => exact h
      | some entry =>
        by_cases hexp : now - entry.timestamp.getD 0 > CACHE_TTL_MS
        · simp only [hexp, ite_true, if_true]
          exact cacheWF_schedulePersist _ (cacheWF_alErase _ _ h)
        · simp only [hexp, ite_false, if_false]
          exact h
  · exact fun st now h => cacheWF_prune st now h

/-- Witness for C8 at concrete inputs: hydration of a malformed store,
an upsert, an expiring lookup and a prune all preserve the invariant on
the one-entry fixture. -/
theorem claim_C8_truthy_invariant_witness :
    cacheWF (applyHydration 0 [none, some { key := "", data := .jsNumber 1, timestamp := some 0 },
        some { key := "g", data := .jsNull, timestamp := some 0 },
        some { key := "h", data := .jsNumber 2, timestamp := some 0 }] stC1).cache ∧
    cacheWF (upsertCache stC1 "" .jsNull 5).cache ∧
    cacheWF (cacheLookup stC1 "k" 99999999).2.cache ∧
    cacheWF (pruneExpiredEntries stC1 99999999).cache :=
  ⟨claim_C8_truthy_invariant.1 0 _ stC1 (by unfold cacheWF; decide),
   claim_C8_truthy_invariant.2.1 stC1 "" .jsNull 5 (by unfold cacheWF; decide),
   claim_C8_truthy_invariant.2.2.1 stC1 "k" 99999999 (by unfold cacheWF; decide),
   claim_C8_truthy_invariant.2.2.2 stC1 99999999 (by unfold cacheWF; decide)⟩

/-! ### Claim C7 -/

/-- A burst of upserts inside one debounce window: each element carries
a key, a payload and its Date.now() instant; no timer fires in
between. -/
def upsertBatch (st : CacheState) (us : List (String × Json × Int)) : CacheState :=
  us.foldl (fun acc u => upsertCache acc u.1 u.2.1 u.2.2) st

/-- Accumulator-passing scan for the last upsert with a given key. -/
def lastUpsertGo (k : String) (acc : Option (Json × Int)) :
    List (String × Json × Int) → Option (Json × Int)
  | [] => acc
  | u :: rest => lastUpsertGo k (if u.1 = k then some u.2 else acc) rest

/-- The payload and instant of the last upsert in the burst that used
the given key, if any. -/
def lastUpsert (us : List (String × Json × Int)) (k : String) :
    Option (Json × Int) :=
  lastUpsertGo k none us

theorem upsertCache_writes (st : CacheState) (k : String) (d : Json) (t : Int) :
    (upsertCache st k d t).writes = st.writes := by
  unfold upsertCache; split
  · rfl
  · rw [schedulePersist_writes]

theorem upsertCache_of_armed (st : CacheState) (k : String) (d : Json) (t : Int)
    (h : st.timerArmed = true) :
    (upsertCache st k d t).timerArmed = true ∧
    (upsertCache st k d t).armEvents = st.armEvents := by
  unfold upsertCache; split
  · exact ⟨h, rfl⟩
  · rw [schedulePersist_of_armed
      { st with cache := alSet st.cache k { data := d, timestamp := some t } } h]
    exact ⟨h, rfl⟩

theorem upsertBatch_of_armed (us : List (String × Json × Int)) :
    ∀ st : CacheState, st.timerArmed = true →
      (upsertBatch st us).timerArmed = true ∧
      (upsertBatch st us).armEvents = st.armEvents := by
  induction us with
  | nil => exact fun st h => ⟨h, rfl⟩
  | cons u rest ih =>
    intro st h
    have h1 := upsertCache_of_armed st u.1 u.2.1 u.2.2 h
    have h2 := ih (upsertCache st u.1 u.2.1 u.2.2) h1.1
    exact ⟨h2.1, by rw [upsertBatch] at h2 ⊢; rw [List.foldl_cons, h2.2, h1.2]⟩

theorem upsertBatch_writes (us : List (String × Json × Int)) :
    ∀ st : CacheState, (upsertBatch st us).writes = st.writes := by
  induction us with
  | nil => exact fun _ => rfl
  | cons u rest ih =>
    intro st
    rw [upsertBatch, List.foldl_cons]
    rw [show List.foldl (fun acc u => upsertCache acc u.1 u.2.1 u.2.2)
        (upsertCache st u.1 u.2.1 u.2.2) rest =
        upsertBatch (upsertCache st u.1 u.2.1 u.2.2) rest from rfl]
    rw [ih, upsertCache_writes]

theorem upsertCache_effective (st : CacheState) (k : String) (d : Json) (t : Int)
    (hk : k ≠ "") (hd : jsTruthy d = true) :
    upsertCache st k d t =
      schedulePersist { st with cache := alSet st.cache k { data := d, timestamp := some t } } := by
  unfold upsertCache; simp [hk, hd]

theorem upsertCache_fires (st : CacheState) (k : String) (d : Json) (t : Int)
    (h : st.timerArmed = false) (hk : k ≠ "") (hd : jsTruthy d = true) :
    (upsertCache st k d t).timerArmed = true ∧
    (upsertCache st k d t).armEvents = st.armEvents + 1 := by
  rw [upsertCache_effective st k d t hk hd]
  unfold schedulePersist
  simp [h]

theorem lastUpsertGo_acc (k : String) (us : List (String × Json × Int)) :
    ∀ acc, lastUpsertGo k acc us = (lastUpsert us k).elim acc some := by
  induction us with
  | nil => intro acc; rfl
  | cons u rest ih =>
    intro acc
    show lastUpsertGo k (if u.1 = k then some u.2 else acc) rest = _
    rw [ih]
    have hR : lastUpsert (u :: rest) k =
        (lastUpsert rest k).elim (if u.1 = k then some u.2 else none) some := by
      show lastUpsertGo k (if u.1 = k then some u.2 else none) rest = _
      rw [ih]
    rw [hR]
    cases lastUpsert rest k with
    | some y => rfl
    | none =>
      by_cases hu : u.1 = k
      · simp [hu]
      · simp [hu]

theorem lastUpsert_none_not_mem (k : String) (us : List (String × Json × Int))
    (h : lastUpsert us k = none) : ∀ u ∈ us, u.1 ≠ k := by
  induction us with
  | nil => intro u hu; simp at hu
  | cons u rest ih =>
    have hR : lastUpsert (u :: rest) k =
        (lastUpsert rest k).elim (if u.1 = k then some u.2 else none) some := by
      show lastUpsertGo k (if u.1 = k then some u.2 else none) rest = _
      rw [lastUpsertGo_acc]
    rw [hR] at h
    cases hr : lastUpsert rest k with
    | some y => rw [hr] at h; simp at h
    | none =>
      rw [hr] at h
      by_cases hu : u.1 = k
      · rw [if_pos hu] at h; simp at h
      · intro v hv
        rcases List.mem_cons.mp hv with h1 | h1
        · rw [h1]; exact hu
        · exact ih hr v h1

theorem upsertBatch_alGet_of_not_mem (us : List (String × Json × Int)) :
    ∀ (st : CacheState) (k : String), (∀ u ∈ us, u.1 ≠ k) →
      alGet (upsertBatch st us).cache k = alGet st.cache k := by
  induction us with
  | nil => intro st k _; rfl
  | cons u rest ih =>
    intro st k h
    have hu : u.1 ≠ k := h u (List.mem_cons_self _ _)
    have hr := ih (upsertCache st u.1 u.2.1 u.2.2) k
      (fun v hv => h v (List.mem_cons_of_mem _ hv))
    rw [upsertBatch, List.foldl_cons]
    rw [show List.foldl (fun acc u => upsertCache acc u.1 u.2.1 u.2.2)
        (upsertCache st u.1 u.2.1 u.2.2) rest =
        upsertBatch (upsertCache st u.1 u.2.1 u.2.2) rest from rfl]
    rw [hr]
    unfold upsertCache; split
    · rfl
    · rw [schedulePersist_cache]; exact alGet_alSet_ne _ _ _ _ hu

theorem upsertBatch_alGet_last (us : List (String × Json × Int)) :
    ∀ (st : CacheState) (k : String) (d : Json) (t : Int),
      (∀ u ∈ us, u.1 ≠ "" ∧ jsTruthy u.2.1 = true) →
      lastUpsert us k = some (d, t) →
      alGet (upsertBatch st us).cache k = some { data := d, timestamp := some t } := by
  induction us with
  | nil => intro st k d t _ h; simp [lastUpsert, lastUpsertGo] at h
  | cons u rest ih =>
    intro st k d t hwf h
    obtain ⟨uk, ud, ut⟩ := u
    have hR : lastUpsert ((uk, ud, ut) :: rest) k =
        (lastUpsert rest k).elim (if uk = k then some (ud, ut) else none) some := by
      show lastUpsertGo k (if uk = k then some (ud, ut) else none) rest = _
      rw [lastUpsertGo_acc]
    rw [hR] at h
    rw [upsertBatch, List.foldl_cons]
    rw [show List.foldl (fun acc u => upsertCache acc u.1 u.2.1 u.2.2)
        (upsertCache st uk ud ut) rest = upsertBatch (upsertCache st uk ud ut) rest from rfl]
    cases hr : lastUpsert rest k with
    | some y =>
      rw [hr] at h
      obtain rfl : y = (d, t) := Option.some.inj h
      exact ih (upsertCache st uk ud ut) k d t
        (fun v hv => hwf v (List.mem_cons_of_mem _ hv)) hr
    | none =>
      rw [hr] at h
      by_cases hu : uk = k
      · rw [if_pos hu] at h
        obtain h2 : (ud, ut) = (d, t) := Option.some.inj h
        rw [Prod.mk.injEq] at h2
        obtain ⟨rfl, rfl⟩ := h2
        have hnm := lastUpsert_none_not_mem k rest hr
        rw [upsertBatch_alGet_of_not_mem rest _ k hnm]
        have hw := hwf (uk, ud, ut) (List.mem_cons_self _ _)
        rw [upsertCache_effective st uk ud ut hw.1 hw.2, schedulePersist_cache]
        rw [hu]
        exact alGet_alSet_self _ _ _
      · rw [if_neg hu] at h; exact absurd h (by simp)

theorem alGet_mem (c : List (String × Entry)) (k : String) (e : Entry)
    (h : alGet c k = some e) : (k, e) ∈ c := by
  induction c with
  | nil => simp [alGet] at h
  | cons hd tl ih =>
    obtain ⟨ka, va⟩ := hd
    simp only [alGet] at h
    by_cases hk : ka = k
    · rw [if_pos hk] at h
      obtain rfl := Option.some.inj h
      exact hk ▸ List.mem_cons_self _ _
    · rw [if_neg hk] at h
      exact List.mem_cons_of_mem _ (ih h)

theorem serializeCache_mem (c : List (String × Entry)) (k : String) (e : Entry)
    (h : (k, e) ∈ c) :
    ({ key := k, data := e.data, timestamp := e.timestamp } : StoredRecord) ∈
      serializeCache c := by
  unfold serializeCache
  exact List.mem_map_of_mem _ h

/-- C7: scheduling a persist while one is pending arms no new timer (so
there is at most one pending timer), and a nonempty burst of truthy
upserts within one debounce window arms exactly one timer and produces
exactly one durable write whose snapshot contains the final state of
every upserted entry. -/
theorem claim_C7_persist_coalescing :
    (∀ st : CacheState, st.timerArmed = true → schedulePersist st = st) ∧
    (∀ (st : CacheState) (us : List (String × Json × Int)),
        st.timerArmed = false → us ≠ [] →
        (∀ u ∈ us, u.1 ≠ "" ∧ jsTruthy u.2.1 = true) →
        (upsertBatch st us).armEvents = st.armEvents + 1 ∧
        (upsertBatch st us).timerArmed = true ∧
        (persistCache (upsertBatch st us)).writes =
          st.writes ++ [serializeCache (upsertBatch st us).cache] ∧
        (∀ k d t, lastUpsert us k = some (d, t) →
          alGet (upsertBatch st us).cache k = some { data := d, timestamp := some t } ∧
          ({ key := k, data := d, timestamp := some t } : StoredRecord) ∈
            serializeCache (upsertBatch st us).cache)) := by
  refine ⟨schedulePersist_of_armed, ?_⟩
  intro st us hfree hne hwf
  obtain ⟨u, rest, rfl⟩ : ∃ v vs, us = v :: vs := by
    cases us with
    | nil => exact absurd rfl hne
    | cons v vs => exact ⟨v, vs, rfl⟩
  have hw := hwf u (List.mem_cons_self _ _)
  have h1 := upsertCache_fires st u.1 u.2.1 u.2.2 hfree hw.1 hw.2
  have h2 := upsertBatch_of_armed rest (upsertCache st u.1 u.2.1 u.2.2) h1.1
  have hcons : upsertBatch st (u :: rest) =
      upsertBatch (upsertCache st u.1 u.2.1 u.2.2) rest := rfl
  refine ⟨by rw [hcons, h2.2, h1.2], by rw [hcons]; exact h2.1, ?_, ?_⟩
  · show (upsertBatch st (u :: rest)).writes ++ _ = _
    rw [upsertBatch_writes]
  · intro k d t hlast
    have hget := upsertBatch_alGet_last (u :: rest) st k d t hwf hlast
    exact ⟨hget, serializeCache_mem _ _ _ (alGet_mem _ _ _ hget)⟩

/-- Witness for C7: from an unarmed one-entry state, a burst of three
upserts (two to the same key) arms one timer, and the single durable
write contains the final value of each upserted key. -/
theorem claim_C7_persist_coalescing_witness :
    (schedulePersist { cache := [], timerArmed := true, armEvents := 4, writes := [] } =
      { cache := [], timerArmed := true, armEvents := 4, writes := [] }) ∧
    ((upsertBatch stC1 [("a", .jsNumber 1, 10), ("b", .jsNumber 2, 11), ("a", .jsNumber 3, 12)]).armEvents =
        stC1.armEvents + 1 ∧
     (upsertBatch stC1 [("a", .jsNumber 1, 10), ("b", .jsNumber 2, 11), ("a", .jsNumber 3, 12)]).timerArmed = true ∧
     (persistCache (upsertBatch stC1 [("a", .jsNumber 1, 10), ("b", .jsNumber 2, 11), ("a", .jsNumber 3, 12)])).writes =
        stC1.writes ++ [serializeCache (upsertBatch stC1 [("a", .jsNumber 1, 10), ("b", .jsNumber 2, 11), ("a", .jsNumber 3, 12)]).cache] ∧
     (alGet (upsertBatch stC1 [("a", .jsNumber 1, 10), ("b", .jsNumber 2, 11), ("a", .jsNumber 3, 12)]).cache "a" =
        some { data := .jsNumber 3, timestamp := some 12 } ∧
      ({ key := "a", data := .jsNumber 3, timestamp := some 12 } : StoredRecord) ∈
        serializeCache (upsertBatch stC1 [("a", .jsNumber 1, 10), ("b", .jsNumber 2, 11), ("a", .jsNumber 3, 12)]).cache)) :=
  ⟨claim_C7_persist_coalescing.1 _ rfl,
   by
    have h := claim_C7_persist_coalescing.2 stC1
      [("a", .jsNumber 1, 10), ("b", .jsNumber 2, 11), ("a", .jsNumber 3, 12)] rfl
      (by simp) (by unfold jsTruthy; decide)
    exact ⟨h.1, h.2.1, h.2.2.1, h.2.2.2 "a" (.jsNumber 3) 12 rfl⟩⟩

/-! ### Claim C2 -/

/-- C2 (amended): on the fetch path with an OK status and a JSON body,
exactly one upsertCache call is made before the promise resolves with
{ data, cacheHit := false, cacheAge := 0 }, and the final state is the
post-lookup state with the payload upserted under the derived key.
When the derived key and the payload are both truthy, a subsequent
lookup within the TTL observes the just-fetched data; when the payload
(or the key) is falsy the upsert call is a no-op and the lookup does
not observe it (see the counterexample). -/
theorem claim_C2_success_upsert (st : CacheState) (req : FetchRequest)
    (now : Int) (status : Int) (payload : Json) (st2 : CacheState) :
    responseOk status = true →
    cacheLookup (pruneExpiredEntries st now) (deriveCacheKey req) now = (none, st2) →
    (handleFetchTikTokData st req now (.response status (some payload))).reply =
      .ok { data := payload, cacheHit := false, cacheAge := 0 } ∧
    (handleFetchTikTokData st req now (.response status (some payload))).upsertCalls = 1 ∧
    (handleFetchTikTokData st req now (.response status (some payload))).state =
      upsertCache st2 (deriveCacheKey req) payload now ∧
    (deriveCacheKey req ≠ "" → jsTruthy payload = true →
      ∀ now2 : Int, now2 - now ≤ CACHE_TTL_MS →
        (cacheLookup
            (handleFetchTikTokData st req now (.response status (some payload))).state
            (deriveCacheKey req) now2).1 =
          some { data := payload, age := now2 - now }) := by
  intro hok hmiss
  have hh : handleFetchTikTokData st req now (.response status (some payload)) =
      { reply := .ok { data := payload, cacheHit := false, cacheAge := 0 },
        state := upsertCache st2 (deriveCacheKey req) payload now,
        fetches := 1, upsertCalls := 1 } := by
    unfold handleFetchTikTokData
    dsimp only
    rw [hmiss]
    simp [hok]
  rw [hh]
  refine ⟨rfl, rfl, rfl, ?_⟩
  intro hk hd now2 httl
  rw [lookup_after_upsert st2 (deriveCacheKey req) payload now now2 hk hd httl]

/-- Fixture: the empty cache state. -/
def stEmpty : CacheState :=
  { cache := [], timerArmed := false, armEvents := 0, writes := [] }

/-- Fixture: a request whose explicit cache key is k. -/
def reqNull : FetchRequest := { cacheKey := some "k", apiUrl := "https://x.test/" }

/-- Counterexample to C2 as stated: a fetch that succeeds with the JSON
body null resolves with { data := null, cacheHit := false,
cacheAge := 0 }, yet a subsequent lookup for the same key within the
TTL does not observe the fetched data, because the upsert of a falsy
payload is a no-op. -/
theorem claim_C2_success_upsert_cex :
    (handleFetchTikTokData stEmpty reqNull 0 (.response 200 (some .jsNull))).reply =
      .ok { data := .jsNull, cacheHit := false, cacheAge := 0 } ∧
    (cacheLookup (handleFetchTikTokData stEmpty reqNull 0
        (.response 200 (some .jsNull))).state "k" 10).1 = none :=
  ⟨rfl, rfl⟩

/-- Witness for C2: a fetch with a truthy payload on a one-entry state
makes one upsert call, resolves with the payload, and a lookup 50 ms
later observes it. -/
theorem claim_C2_success_upsert_witness :
    (handleFetchTikTokData stC1 { cacheKey := some "new", apiUrl := "u" } 50
        (.response 200 (some (.jsNumber 9)))).reply =
      .ok { data := .jsNumber 9, cacheHit := false, cacheAge := 0 } ∧
    (handleFetchTikTokData stC1 { cacheKey := some "new", apiUrl := "u" } 50
        (.response 200 (some (.jsNumber 9)))).upsertCalls = 1 ∧
    (handleFetchTikTokData stC1 { cacheKey := some "new", apiUrl := "u" } 50
        (.response 200 (some (.jsNumber 9)))).state =
      upsertCache stC1 "new" (.jsNumber 9) 50 ∧
    (cacheLookup (handleFetchTikTokData stC1 { cacheKey := some "new", apiUrl := "u" } 50
        (.response 200 (some (.jsNumber 9)))).state "new" 100).1 =
      some { data := .jsNumber 9, age := 50 } := by
  have h := claim_C2_success_upsert stC1 { cacheKey := some "new", apiUrl := "u" } 50
    200 (.jsNumber 9) stC1 rfl rfl
  refine ⟨h.1, h.2.1, h.2.2.1, ?_⟩
  have h4 := h.2.2.2 (by decide) rfl 100 (by decide)
  simpa using h4

/-! ### Claim C6 -/

/-- The representation invariant of a JS Map rendered as an association
list: keys are pairwise distinct. -/
def keysNodup (c : List (String × Entry)) : Prop :=
  (c.map Prod.fst).Nodup

theorem alGet_none_of_not_mem (c : List (String × Entry)) (k : String)
    (h : k ∉ c.map Prod.fst) : alGet c k = none := by
  induction c with
  | nil => rfl
  | cons hd tl ih =>
    obtain ⟨ka, va⟩ := hd
    simp only [List.map_cons, List.mem_cons, not_or] at h
    simp only [alGet]
    rw [if_neg fun he => h.1 he.symm]
    exact ih h.2

theorem keysNodup_filter (c : List (String × Entry)) (p : String × Entry → Bool)
    (h : keysNodup c) : keysNodup (c.filter p) :=
  List.Nodup.sublist (List.Sublist.map Prod.fst (List.filter_sublist c)) h

theorem alGet_filter_nodup (c : List (String × Entry)) (p : String × Entry → Bool)
    (k : String) (h : keysNodup c) :
    alGet (c.filter p) k = alGet c k ∨ alGet (c.filter p) k = none := by
  induction c with
  | nil => right; rfl
  | cons hd tl ih =>
    obtain ⟨ka, va⟩ := hd
    have hnd := List.nodup_cons.mp h
    by_cases hp : p (ka, va) = true
    · rw [List.filter_cons_of_pos hp]
      by_cases hk : ka = k
      · left; simp only [alGet]; rw [if_pos hk, if_pos hk]
      · simp only [alGet]; rw [if_neg hk, if_neg hk]; exact ih hnd.2
    · rw [List.filter_cons_of_neg (by simpa using hp)]
      by_cases hk : ka = k
      · right
        apply alGet_none_of_not_mem
        intro hmem
        apply hnd.1
        rw [hk]
        exact (List.Sublist.map Prod.fst (List.filter_sublist tl)).subset hmem
      · simp only [alGet]; rw [if_neg hk]; exact ih hnd.2

theorem alGet_alErase_self_nodup (c : List (String × Entry)) (k : String)
    (h : keysNodup c) : alGet (alErase c k) k = none := by
  induction c with
  | nil => rfl
  | cons hd tl ih =>
    obtain ⟨ka, va⟩ := hd
    have hnd := List.nodup_cons.mp h
    by_cases hk : ka = k
    · simp only [alErase]; rw [if_pos hk]
      exact alGet_none_of_not_mem tl k (hk ▸ hnd.1)
    · simp only [alErase, alGet]
      rw [if_neg hk]
      simp only [alGet]
      rw [if_neg hk]
      exact ih hnd.2

theorem prune_cache_cases (st : CacheState) (now : Int) :
    (pruneExpiredEntries st now).cache = st.cache ∨
    (pruneExpiredEntries st now).cache =
      st.cache.filter fun kv => !(now - (kv.2.timestamp.getD 0) > CACHE_TTL_MS) := by
  unfold pruneExpiredEntries; dsimp only; split
  · left; rfl
  · right; rw [schedulePersist_cache]

theorem keysNodup_prune (st : CacheState) (now : Int) (h : keysNodup st.cache) :
    keysNodup (pruneExpiredEntries st now).cache := by
  rcases prune_cache_cases st now with hc | hc <;> rw [hc]
  · exact h
  · exact keysNodup_filter _ _ h

theorem alGet_prune (st : CacheState) (now : Int) (k : String)
    (h : keysNodup st.cache) :
    alGet (pruneExpiredEntries st now).cache k = alGet st.cache k ∨
    alGet (pruneExpiredEntries st now).cache k = none := by
  rcases prune_cache_cases st now with hc | hc <;> rw [hc]
  · left; rfl
  · exact alGet_filter_nodup _ _ _ h

/-- After a lookup miss, the post-lookup state maps the key to the same
entry as before, or to nothing (the expired entry was deleted). -/
theorem cacheLookup_miss_get (st : CacheState) (key : String) (now : Int)
    (st2 : CacheState) (hnd : keysNodup st.cache)
    (h : cacheLookup st key now = (none, st2)) :
    alGet st2.cache key = alGet st.cache key ∨ alGet st2.cache key = none := by
  unfold cacheLookup at h
  by_cases hk : key = ""
  · rw [if_pos hk] at h
    simp only [Prod.mk.injEq] at h
    rw [← h.2]
    left; rfl
  · rw [if_neg hk] at h
    cases hg : alGet st.cache key with
    | none =>
      rw [hg] at h
      simp only [Prod.mk.injEq] at h
      rw [← h.2]
      left; exact hg
    | some entry =>
      rw [hg] at h
      by_cases hexp : now - entry.timestamp.getD 0 > CACHE_TTL_MS
      · simp only [hexp, ite_true, if_true, Prod.mk.injEq] at h
        right
        rw [← h.2, schedulePersist_cache]
        exact alGet_alErase_self_nodup _ _ hnd
      · simp only [hexp, ite_false, if_false, Prod.mk.injEq] at h
        exact absurd h.1 (by simp)

/-- C6: a non-2xx remote response terminates the request with the reply
{ error: "HTTP error: <status>" }, performs exactly one network call
(no retry), and inserts or replaces nothing in the cache for the
derived key: afterwards the map holds the same entry as before the
request, or none (lookup/prune may have deleted an expired entry, but
the failed request stores nothing). -/
theorem claim_C6_http_error (st : CacheState) (req : FetchRequest) (now : Int)
    (status : Int) (body : Option Json) (st2 : CacheState) :
    keysNodup st.cache →
    cacheLookup (pruneExpiredEntries st now) (deriveCacheKey req) now = (none, st2) →
    responseOk status = false →
    (fetchTikTokDataResponse st req now (.response status body)).1 =
      .failure ("HTTP error: " ++ toString status) ∧
    (fetchTikTokDataResponse st req now (.response status body)).2.fetches = 1 ∧
    (fetchTikTokDataResponse st req now (.response status body)).2.state = st2 ∧
    (alGet (fetchTikTokDataResponse st req now (.response status body)).2.state.cache
        (deriveCacheKey req) = alGet st.cache (deriveCacheKey req) ∨
     alGet (fetchTikTokDataResponse st req now (.response status body)).2.state.cache
        (deriveCacheKey req) = none) := by
  intro hnd hmiss hko
  have hh : handleFetchTikTokData st req now (.response status body) =
      { reply := .error ("HTTP error: " ++ toString status),
        state := st2, fetches := 1, upsertCalls := 0 } := by
    unfold handleFetchTikTokData
    dsimp only
    rw [hmiss]
    simp [hko]
  have hne : ("HTTP error: " ++ toString status) ≠ "" := by
    intro hcontra
    have hlen := congrArg String.length hcontra
    rw [String.length_append] at hlen
    rw [show ("HTTP error: " : String).length = 12 from rfl] at hlen
    rw [show ("" : String).length = 0 from rfl] at hlen
    omega
  have hp : fetchTikTokDataResponse st req now (.response status body) =
      (.failure ("HTTP error: " ++ toString status),
       { reply := .error ("HTTP error: " ++ toString status),
         state := st2, fetches := 1, upsertCalls := 0 }) := by
    unfold fetchTikTokDataResponse
    rw [hh]
    simp [hne]
  rw [hp]
  refine ⟨rfl, rfl, rfl, ?_⟩
  have c1 := cacheLookup_miss_get (pruneExpiredEntries st now) (deriveCacheKey req)
    now st2 (keysNodup_prune st now hnd) hmiss
  have c2 := alGet_prune st now (deriveCacheKey req) hnd
  rcases c1 with c1 | c1
  · rw [c1]
    exact c2
  · right; exact c1

/-- Witness for C6: a 404 on a one-entry state with an unmapped derived
key replies with HTTP error: 404, one fetch, and the entry of the map
is untouched. -/
theorem claim_C6_http_error_witness :
    (fetchTikTokDataResponse stC1 { cacheKey := some "other", apiUrl := "u" } 50
        (.response 404 (some (.jsNumber 1)))).1 = .failure "HTTP error: 404" ∧
    (fetchTikTokDataResponse stC1 { cacheKey := some "other", apiUrl := "u" } 50
        (.response 404 (some (.jsNumber 1)))).2.fetches = 1 ∧
    (fetchTikTokDataResponse stC1 { cacheKey := some "other", apiUrl := "u" } 50
        (.response 404 (some (.jsNumber 1)))).2.state = stC1 ∧
    (alGet (fetchTikTokDataResponse stC1 { cacheKey := some "other", apiUrl := "u" } 50
        (.response 404 (some (.jsNumber 1)))).2.state.cache "other" = alGet stC1.cache "other" ∨
     alGet (fetchTikTokDataResponse stC1 { cacheKey := some "other", apiUrl := "u" } 50
        (.response 404 (some (.jsNumber 1)))).2.state.cache "other" = none) := by
  have h := claim_C6_http_error stC1 { cacheKey := some "other", apiUrl := "u" } 50
    404 (some (.jsNumber 1)) stC1 (by unfold keysNodup; decide) rfl rfl
  exact h

/-! ### Claim C3 -/

/-- C3: the derived cache key is the truthy explicit cacheKey when
present; otherwise the decoded url query parameter of the apiUrl, or
failing that its source parameter; otherwise the raw apiUrl when URL
parsing or decoding fails.  For the spec's example endpoint the key is
https://site/v/1, independent of the api_key parameter and of parameter
ordering (any two parseable apiUrls whose url/source target coincides
and decodes derive the same key). -/
theorem claim_C3_key_derivation :
    (∀ (req : FetchRequest) (k : String), req.cacheKey = some k → k ≠ "" →
      deriveCacheKey req = k) ∧
    deriveCacheKey
      ⟨none, "https://api.example/x?url=https%3A%2F%2Fsite%2Fv%2F1&api_key=Demo"⟩ =
      "https://site/v/1" ∧
    deriveCacheKey
      ⟨none, "https://api.example/x?api_key=Demo&url=https%3A%2F%2Fsite%2Fv%2F1"⟩ =
      "https://site/v/1" ∧
    (∀ a1 a2 q1 q2 v w, parseURLQuery a1 = some q1 → parseURLQuery a2 = some q2 →
      jsOrParam (searchParamsGet q1 "url") (searchParamsGet q1 "source") = some v →
      jsOrParam (searchParamsGet q2 "url") (searchParamsGet q2 "source") = some v →
      decodeURIComponent v = some w →
      deriveCacheKey { cacheKey := none, apiUrl := a1 } = w ∧
      deriveCacheKey { cacheKey := none, apiUrl := a2 } = w) ∧
    (∀ a, parseURLQuery a = none →
      deriveCacheKey { cacheKey := none, apiUrl := a } = a) ∧
    (∀ a q v, parseURLQuery a = some q →
      jsOrParam (searchParamsGet q "url") (searchParamsGet q "source") = some v →
      deriveCacheKey { cacheKey := none, apiUrl := a } = (decodeURIComponent v).getD a) ∧
    (∀ a q v, parseURLQuery a = some q →
      (searchParamsGet q "url" = none ∨ searchParamsGet q "url" = some "") →
      searchParamsGet q "source" = some v → v ≠ "" →
      deriveCacheKey { cacheKey := none, apiUrl := a } = (decodeURIComponent v).getD a) := by
  have hwork : ∀ a q v, parseURLQuery a = some q →
      jsOrParam (searchParamsGet q "url") (searchParamsGet q "source") = some v →
      deriveCacheKey { cacheKey := none, apiUrl := a } = (decodeURIComponent v).getD a := by
    intro a q v hq hv
    show deriveKeyFromUrl a = _
    unfold deriveKeyFromUrl
    rw [hq]; dsimp only
    rw [hv]; dsimp only
    cases hd : decodeURIComponent v with
    | none => rfl
    | some w => rfl
  refine ⟨?_, rfl, rfl, ?_, ?_, hwork, ?_⟩
  · intro req k hck hk
    unfold deriveCacheKey
    rw [hck]
    simp [hk]
  · intro a1 a2 q1 q2 v w h1 h2 hv1 hv2 hw
    rw [hwork a1 q1 v h1 hv1, hwork a2 q2 v h2 hv2, hw]
    exact ⟨rfl, rfl⟩
  · intro a hq
    show deriveKeyFromUrl a = _
    unfold deriveKeyFromUrl
    rw [hq]
  · intro a q v hq hurl hsrc hv
    apply hwork a q v hq
    rcases hurl with hu | hu <;>
      (unfold jsOrParam; rw [hu, hsrc]; simp [hv])

/-- Witness for C3: the explicit override, the fallback on an
unparseable URL, the general target lemma on a source parameter, and
the ordering-independence conjunct at the spec's two parameter
orders. -/
theorem claim_C3_key_derivation_witness :
    deriveCacheKey { cacheKey := some "K", apiUrl := "https://x.test/?url=a" } = "K" ∧
    deriveCacheKey { cacheKey := none, apiUrl := "not a url" } = "not a url" ∧
    deriveCacheKey { cacheKey := none, apiUrl := "https://x.test/p?source=abc" } =
      (decodeURIComponent "abc").getD "https://x.test/p?source=abc" ∧
    (deriveCacheKey
        ⟨none, "https://api.example/x?url=https%3A%2F%2Fsite%2Fv%2F1&api_key=Demo"⟩ =
      "https://site/v/1" ∧
     deriveCacheKey
        ⟨none, "https://api.example/x?api_key=Demo&url=https%3A%2F%2Fsite%2Fv%2F1"⟩ =
      "https://site/v/1") :=
  ⟨claim_C3_key_derivation.1 _ "K" rfl (by decide),
   claim_C3_key_derivation.2.2.2.2.1 "not a url" rfl,
   claim_C3_key_derivation.2.2.2.2.2.2 "https://x.test/p?source=abc" "source=abc" "abc"
     rfl (.inl rfl) rfl (by decide),
   claim_C3_key_derivation.2.2.2.1
     "https://api.example/x?url=https%3A%2F%2Fsite%2Fv%2F1&api_key=Demo"
     "https://api.example/x?api_key=Demo&url=https%3A%2F%2Fsite%2Fv%2F1"
     "url=https%3A%2F%2Fsite%2Fv%2F1&api_key=Demo"
     "api_key=Demo&url=https%3A%2F%2Fsite%2Fv%2F1"
     "https://site/v/1" "https://site/v/1" rfl rfl rfl rfl rfl⟩

/-! ### Claim C10 -/

/-- C10: for a request without an explicit cacheKey whose apiUrl parses
and yields a truthy url/source target value v (already form-decoded
once by query-parameter access), a failing second decode
(decodeURIComponent throws on an invalid percent escape) is absorbed
and the key falls back to the full raw apiUrl, not the once-decoded v;
a successful second decode yields its result, so the value has been
percent-decoded twice in total. -/
theorem claim_C10_double_decode (req : FetchRequest) (q v : String) :
    req.cacheKey = none →
    parseURLQuery req.apiUrl = some q →
    jsOrParam (searchParamsGet q "url") (searchParamsGet q "source") = some v →
    ((decodeURIComponent v = none → deriveCacheKey req = req.apiUrl) ∧
     (∀ w, decodeURIComponent v = some w → deriveCacheKey req = w) ∧
     (∀ rn rv, (rawPairs q).find? (fun p => formDecode p.1 = "url") = some (rn, rv) →
        formDecode rv ≠ "" → v = formDecode rv)) := by
  intro hck hq hv
  have hkey : deriveCacheKey req = deriveKeyFromUrl req.apiUrl := by
    unfold deriveCacheKey
    rw [hck]
  refine ⟨?_, ?_, ?_⟩
  · intro hd
    rw [hkey]
    unfold deriveKeyFromUrl
    rw [hq]; dsimp only
    rw [hv]; dsimp only
    rw [hd]
  · intro w hd
    rw [hkey]
    unfold deriveKeyFromUrl
    rw [hq]; dsimp only
    rw [hv]; dsimp only
    rw [hd]
  · intro rn rv hfind hne
    have hurl : searchParamsGet q "url" = some (formDecode rv) := by
      unfold searchParamsGet
      rw [hfind]
      rfl
    rw [hurl] at hv
    simp only [jsOrParam] at hv
    rw [if_pos hne] at hv
    exact (Option.some.inj hv).symm

/-- Witness for C10: the value a%ZZ (once-decoded from a%25ZZ) fails
the second decode and the key falls back to the whole apiUrl; the
doubly-escaped value https%253A%252F%252Fsite decodes twice to
https://site. -/
theorem claim_C10_double_decode_witness :
    deriveCacheKey { cacheKey := none, apiUrl := "https://x.test/p?url=a%25ZZ" } =
      "https://x.test/p?url=a%25ZZ" ∧
    deriveCacheKey ⟨none, "https://x.test/p?url=https%253A%252F%252Fsite"⟩ =
      "https://site" ∧
    "https%3A%2F%2Fsite" = formDecode "https%253A%252F%252Fsite" :=
  ⟨(claim_C10_double_decode { cacheKey := none, apiUrl := "https://x.test/p?url=a%25ZZ" }
      "url=a%25ZZ" "a%ZZ" rfl rfl rfl).1 rfl,
   (claim_C10_double_decode
      { cacheKey := none, apiUrl := "https://x.test/p?url=https%253A%252F%252Fsite" }
      "url=https%253A%252F%252Fsite" "https%3A%2F%2Fsite" rfl rfl rfl).2.1
      "https://site" rfl,
   (claim_C10_double_decode
      { cacheKey := none, apiUrl := "https://x.test/p?url=https%253A%252F%252Fsite" }
      "url=https%253A%252F%252Fsite" "https%3A%2F%2Fsite" rfl rfl rfl).2.2
      "url" "https%253A%252F%252Fsite" rfl (by decide)⟩

/-! ### Claim C9 -/

/-- Resolving the canonical name of an already-resolved level is the
identity, whatever the current global level. -/
theorem resolveLevel_levelName (g l : Level) :
    resolveLevel g (some (levelName l)) = l := by
  cases l <;> rfl

/-- C9: a log record is emitted iff its resolved level is at or above
both the process-wide global minimum (read at call time) and the
instance's local minimum (fixed at construction), and the instance's
sanitized scope is not in the configured deny-list; in particular a
denied scope emits nothing at any level. -/
theorem claim_C9_logger_gate (gCons gNow : Level) (scope : String)
    (options : LoggerOptions) (level : Option String) :
    logWillEmit gNow (createScopedLogger gCons scope options) level = true ↔
      (levelOrder gNow ≤ levelOrder (resolveLevel gNow level) ∧
       levelOrder (resolveLevel gCons options.level) ≤
         levelOrder (resolveLevel gNow level) ∧
       sanitizeScope scope ∉
         (options.denyList.filter (· ≠ "")).map sanitizeScope) := by
  have hsl : shouldLog gNow (some (levelName (resolveLevel gNow level))) =
      decide (levelOrder gNow ≤ levelOrder (resolveLevel gNow level)) := by
    unfold shouldLog
    rw [resolveLevel_levelName]
  by_cases h1 : levelOrder gNow ≤ levelOrder (resolveLevel gNow level) <;>
    by_cases h2 : levelOrder (resolveLevel gNow level) <
        levelOrder (resolveLevel gCons options.level) <;>
    by_cases h3 : sanitizeScope scope ∈
        (options.denyList.filter (· ≠ "")).map sanitizeScope <;>
    simp [logWillEmit, createScopedLogger, hsl, h1, h2, h3, List.contains,
      List.elem_iff] <;>
    omega

/-- Witness for C9 at concrete instances: an info record passes a
debug/debug gate for an undenied scope; it is dropped when the local
level is warn; an error record is dropped when the scope is denied. -/
theorem claim_C9_logger_gate_witness :
    (logWillEmit .debug (createScopedLogger .debug "bg"
        { level := none, denyList := [] }) (some "info") = true ↔
      (levelOrder .debug ≤ levelOrder (resolveLevel .debug (some "info")) ∧
       levelOrder (resolveLevel .debug none) ≤
         levelOrder (resolveLevel .debug (some "info")) ∧
       sanitizeScope "bg" ∉
         (([] : List String).filter (· ≠ "")).map sanitizeScope)) ∧
    (logWillEmit .debug (createScopedLogger .debug "bg"
        { level := some "warn", denyList := [] }) (some "info") = true ↔
      (levelOrder .debug ≤ levelOrder (resolveLevel .debug (some "info")) ∧
       levelOrder (resolveLevel .debug (some "warn")) ≤
         levelOrder (resolveLevel .debug (some "info")) ∧
       sanitizeScope "bg" ∉
         (([] : List String).filter (· ≠ "")).map sanitizeScope)) ∧
    (logWillEmit .debug (createScopedLogger .debug "bg"
        { level := none, denyList := ["bg"] }) (some "error") = true ↔
      (levelOrder .debug ≤ levelOrder (resolveLevel .debug (some "error")) ∧
       levelOrder (resolveLevel .debug none) ≤
         levelOrder (resolveLevel .debug (some "error")) ∧
       sanitizeScope "bg" ∉
         (["bg"].filter (· ≠ "")).map sanitizeScope)) :=
  ⟨claim_C9_logger_gate .debug .debug "bg" { level := none, denyList := [] } (some "info"),
   claim_C9_logger_gate .debug .debug "bg" { level := some "warn", denyList := [] } (some "info"),
   claim_C9_logger_gate .debug .debug "bg" { level := none, denyList := ["bg"] } (some "error")⟩

end TikTokExt
